import Mathlib

/-!
Shallow embedding of `tslearn/matrix_profile.py` (the `MatrixProfile`
transformer and its helper `_series_to_segments`), together with the
collaborators it consumes (`TimeSeriesScalerMeanVariance`, `check_dims`,
`check_is_fitted`), which are modelled from the specification where their
source is not available.

Machine floating-point values are idealised as real numbers; the profile
values live in `ℝ≥0∞` so that the `np.inf` sentinel written into the
exclusion band is `⊤`.
-/

open scoped BigOperators ENNReal NNReal

namespace TslearnMP

/-- Shape `(n_ts, sz, d)` of a 3D time-series dataset. -/
structure TSShape where
  n_ts : ℕ
  sz : ℕ
  d : ℕ
  deriving DecidableEq, Repr

/-- A 3D time-series dataset: a shape plus a total valuation
`val series_index time_index channel_index`.  Only indices below the shape
bounds are meaningful. -/
structure Dataset where
  shape : TSShape
  val : ℕ → ℕ → ℕ → ℝ

/-- `n_windows sz m = sz - m + 1` window count produced by
`_series_to_segments` (`time_series.shape[0] - segment_size + 1`),
meaningful when `1 ≤ m ≤ sz`. -/
def n_windows (sz m : ℕ) : ℕ := sz - m + 1

/-- `_series_to_segments` on a single 2D series: the `as_strided` view with
strides `(elem_size, elem_size, time_series.strides[1])` reads
`segments[i, t, c] = time_series[i + t, c]`. -/
def series_to_segments (series : ℕ → ℕ → ℝ) : ℕ → ℕ → ℕ → ℝ :=
  fun i t c => series (i + t) c

/-- `_series_to_segments` on a 3D dataset: the per-series segment arrays
(each with `n_windows X.shape.sz m` windows) are stacked with `np.vstack`
along axis 0, in series order. -/
def series_to_segments_batch (m : ℕ) (X : Dataset) : ℕ → ℕ → ℕ → ℝ :=
  fun q t c =>
    series_to_segments (X.val (q / n_windows X.shape.sz m)) (q % n_windows X.shape.sz m) t c

noncomputable section

/-- Modelled from the spec: `TimeSeriesScalerMeanVariance.fit_transform`
(`tslearn.preprocessing`, source not available) shifts and scales each
window so that, per channel, the mean is 0 and the variance is 1 across
the window's `m` time steps.  The zero-variance policy is left open by the
spec; here it follows Lean's division-by-zero convention. -/
def scale_segments (m : ℕ) (seg : ℕ → ℕ → ℕ → ℝ) : ℕ → ℕ → ℕ → ℝ :=
  fun i t c =>
    let μ : ℝ := (∑ s in Finset.range m, seg i s c) / m
    let v : ℝ := (∑ s in Finset.range m, (seg i s c - μ) ^ 2) / m
    (seg i t c - μ) / Real.sqrt v

/-- `segments.reshape((-1, subsequence_length * d))` on a row-major
`(n_windows, m, d)` array: flat entry `k` of window `i` is
`segments[i, k / d, k % d]`. -/
def segments_2d (d : ℕ) (seg : ℕ → ℕ → ℕ → ℝ) : ℕ → ℕ → ℝ :=
  fun i k => seg i (k / d) (k % d)

/-- `pdist(..., "euclidean")` between rows `i` and `j` of a matrix whose
rows have length `L`. -/
def pdist_euclidean (L : ℕ) (A : ℕ → ℕ → ℝ) (i j : ℕ) : ℝ :=
  Real.sqrt (∑ k in Finset.range L, (A i k - A j k) ^ 2)

/-- `band_width = int(np.ceil(subsequence_length / 4))`. -/
def band_width (m : ℕ) : ℕ := ⌈(m : ℚ) / 4⌉₊

/-- The boolean band mask
`np.tri(n, n, band_width) & ~np.tri(n, n, -(band_width + 1))`:
`np.tri(n, n, k)[i, j]` is true iff `j ≤ i + k` (integer arithmetic). -/
def in_band (b i j : ℕ) : Bool :=
  decide ((j : ℤ) ≤ (i : ℤ) + (b : ℤ)) && !decide ((j : ℤ) ≤ (i : ℤ) - ((b : ℤ) + 1))

/-- The unmasked distance matrix `dists = squareform(pdist(segments_2d,
"euclidean"))` of the native path, over the optionally scaled segments of
one series. -/
def native_dists (m d : ℕ) (scale : Bool) (series : ℕ → ℕ → ℝ) : ℕ → ℕ → ℝ :=
  fun i j =>
    let seg := series_to_segments series
    let seg' := if scale then scale_segments m seg else seg
    pdist_euclidean (m * d) (segments_2d d seg') i j

/-- The distance matrix after `dists[band] = np.inf`: entries inside the
exclusion band become `⊤`. -/
def native_masked (m d : ℕ) (scale : Bool) (series : ℕ → ℕ → ℝ) (i j : ℕ) : ℝ≥0∞ :=
  if in_band (band_width m) i j = true then ⊤
  else ENNReal.ofReal (native_dists m d scale series i j)

/-- One native-path matrix profile entry: `dists.min(axis=1)` taken over
the `n_windows sz m` columns of the masked row `i`. -/
def native_profile (m d sz : ℕ) (scale : Bool) (series : ℕ → ℕ → ℝ) (i : ℕ) : ℝ≥0∞ :=
  (Finset.range (n_windows sz m)).inf (native_masked m d scale series i)

/-- Errors raised by the `MatrixProfile` methods. -/
inductive MPError where
  | valueError : String → MPError
  | notImplementedError : String → MPError
  | notFittedError : String → MPError
  deriving DecidableEq, Repr

/-- The transformed output: a shape plus `ℝ≥0∞`-valued entries (the dtype
is a float array which may hold `np.inf`). -/
structure MPOutput where
  shape : TSShape
  val : ℕ → ℕ → ℕ → ℝ≥0∞

/-- The `MatrixProfile` estimator state: its three constructor parameters
plus the `_X_fit_dims` attribute, absent (`none`) until `fit` runs. -/
structure MatrixProfile where
  subsequence_length : ℕ
  implementation : Option String
  scale : Bool
  X_fit_dims : Option TSShape := none

namespace MatrixProfile

/-- `available_implementations` of `_check_if_implementation_exists`. -/
def available_implementations : List String := ["stump", "gpu_stump"]

/-- `_check_if_implementation_exists`: raise `ValueError` when
`implementation` is not `None` and not recognized. -/
def check_if_implementation_exists (mp : MatrixProfile) : Except MPError Unit :=
  match mp.implementation with
  | none => .ok ()
  | some s =>
      if s ∈ available_implementations then .ok ()
      else .error (.valueError "This matrix profile algorithm is not recognized.")

/-- `_is_fitted`: `check_is_fitted(self, '_X_fit_dims')` (sklearn
collaborator, modelled from the spec: state error when `fit` has not run,
i.e. the `_X_fit_dims` attribute is absent). -/
def is_fitted (mp : MatrixProfile) : Except MPError Unit :=
  match mp.X_fit_dims with
  | some _ => .ok ()
  | none => .error (.notFittedError "This MatrixProfile instance is not fitted yet.")

/-- Modelled from the spec: `check_dims(X, X_fit_dims=self._X_fit_dims,
check_n_features_only=True)` (`tslearn.utils`, source not available)
checks that the channel count of `X` matches the fitted one; `n_ts` and
`sz` may differ. -/
def check_dims_transform (mp : MatrixProfile) (X : Dataset) : Except MPError Unit :=
  match mp.X_fit_dims with
  | none => .ok ()
  | some sh =>
      if X.shape.d = sh.d then .ok ()
      else .error (.valueError "Number of features of the provided timeseries must match.")

/-- `_fit`: record `X.shape` in `_X_fit_dims`. -/
def fit (mp : MatrixProfile) (X : Dataset) : MatrixProfile :=
  { mp with X_fit_dims := some X.shape }

/-- `_transform`.  The external `stumpy.stump` and `stumpy.gpu_stump`
backends are out of scope; they are passed in as arbitrary functions from
a 1D series and a subsequence length to a profile vector (only the
distance column `result[:, 0]` is modelled). -/
def transform_core (stump gpu_stump : (ℕ → ℝ) → ℕ → ℕ → ℝ≥0∞)
    (mp : MatrixProfile) (X : Dataset) : Except MPError MPOutput := do
  _ ← mp.check_if_implementation_exists
  let output_size := n_windows X.shape.sz mp.subsequence_length
  let out_shape : TSShape := ⟨X.shape.n_ts, output_size, 1⟩
  match mp.implementation with
  | some "stump" =>
      if 1 < X.shape.d then
        .error (.notImplementedError "We currently do not support using multi-dimensional matrix profiles from the stumpy library.")
      else
        .ok ⟨out_shape, fun i_ts i _ => stump (fun t => X.val i_ts t 0) mp.subsequence_length i⟩
  | some "gpu_stump" =>
      if 1 < X.shape.d then
        .error (.notImplementedError "We currently do not support using multi-dimensional matrix profiles from the stumpy library.")
      else
        .ok ⟨out_shape, fun i_ts i _ => gpu_stump (fun t => X.val i_ts t 0) mp.subsequence_length i⟩
  | _ =>
      .ok ⟨out_shape, fun i_ts i _ =>
        native_profile mp.subsequence_length X.shape.d X.shape.sz mp.scale (X.val i_ts) i⟩

/-- `transform`: `_is_fitted`, then `check_dims` against the fitted
shape, then `_transform`. -/
def transform (stump gpu_stump : (ℕ → ℝ) → ℕ → ℕ → ℝ≥0∞)
    (mp : MatrixProfile) (X : Dataset) : Except MPError MPOutput := do
  _ ← mp.is_fitted
  _ ← mp.check_dims_transform X
  mp.transform_core stump gpu_stump X

/-- `fit_transform`: `self._fit(X)._transform(X)` (no fitted-state check,
no cross-call dimension check). -/
def fit_transform (stump gpu_stump : (ℕ → ℝ) → ℕ → ℕ → ℝ≥0∞)
    (mp : MatrixProfile) (X : Dataset) : Except MPError MPOutput :=
  (mp.fit X).transform_core stump gpu_stump X

end MatrixProfile

end

/-! ### Helper lemmas -/

/-- `band_width m` is the usual integer ceiling division `(m + 3) / 4`. -/
theorem band_width_eq (m : ℕ) : band_width m = (m + 3) / 4 := by
  unfold band_width
  apply le_antisymm
  · rw [Nat.ceil_le, div_le_iff₀ (by norm_num)]
    have h : m ≤ (m + 3) / 4 * 4 := by omega
    exact_mod_cast h
  · rcases Nat.eq_zero_or_pos ((m + 3) / 4) with h | h
    · omega
    · have hm : 0 < m := by omega
      have hlt : (m + 3) / 4 - 1 < ⌈(m : ℚ) / 4⌉₊ := by
        rw [Nat.lt_ceil, lt_div_iff₀ (by norm_num)]
        have h4 : ((m + 3) / 4 - 1) * 4 < m := by omega
        exact_mod_cast h4
      omega

/-- The two-triangle band mask marks exactly the entries within integer
distance `b` of the diagonal. -/
theorem in_band_iff (b i j : ℕ) : in_band b i j = true ↔ ((i : ℤ) - j).natAbs ≤ b := by
  simp only [in_band, Bool.and_eq_true, decide_eq_true_eq, Bool.not_eq_true',
    decide_eq_false_iff_not, not_le]
  omega

/-- Scaling a window only reads that window's own values (channel by
channel), so windows with equal content scale identically. -/
theorem scale_segments_congr (m : ℕ) (seg : ℕ → ℕ → ℕ → ℝ) (i j t c : ℕ)
    (h : ∀ s, s < m → seg i s c = seg j s c) (ht : t < m) :
    scale_segments m seg i t c = scale_segments m seg j t c := by
  simp only [scale_segments]
  have hsum : ∑ s in Finset.range m, seg i s c = ∑ s in Finset.range m, seg j s c :=
    Finset.sum_congr rfl (fun s hs => h s (Finset.mem_range.mp hs))
  have hvar : ∑ s in Finset.range m, (seg i s c - (∑ u in Finset.range m, seg j u c) / m) ^ 2
      = ∑ s in Finset.range m, (seg j s c - (∑ u in Finset.range m, seg j u c) / m) ^ 2 := by
    refine Finset.sum_congr rfl (fun s hs => ?_)
    rw [h s (Finset.mem_range.mp hs)]
  rw [hsum, hvar, h t ht]

/-- Adding one constant to every value of a series shifts each window's
per-channel mean by that constant and leaves the z-normalised window
unchanged (for `m ≥ 1`). -/
theorem scale_segments_shift (m : ℕ) (hm : 1 ≤ m) (series : ℕ → ℕ → ℝ) (cst : ℝ)
    (i t c : ℕ) :
    scale_segments m (series_to_segments fun u ch => series u ch + cst) i t c
      = scale_segments m (series_to_segments series) i t c := by
  have hm0 : (m : ℝ) ≠ 0 := Nat.cast_ne_zero.mpr (by omega)
  simp only [scale_segments, series_to_segments]
  have hμ : (∑ s in Finset.range m, (series (i + s) c + cst)) / (m : ℝ)
      = (∑ s in Finset.range m, series (i + s) c) / (m : ℝ) + cst := by
    rw [Finset.sum_add_distrib, Finset.sum_const, Finset.card_range, nsmul_eq_mul, add_div,
      mul_div_cancel_left₀ _ hm0]
  rw [hμ]
  have hsum2 : ∑ s in Finset.range m,
      (series (i + s) c + cst - ((∑ u in Finset.range m, series (i + u) c) / (m : ℝ) + cst)) ^ 2
      = ∑ s in Finset.range m,
        (series (i + s) c - (∑ u in Finset.range m, series (i + u) c) / (m : ℝ)) ^ 2 :=
    Finset.sum_congr rfl (fun s _ => by ring)
  rw [hsum2]
  congr 1
  ring

/-- When the fitted-state and dimension checks pass, `transform` runs
`_transform`. -/
theorem transform_eq_core (st gp : (ℕ → ℝ) → ℕ → ℕ → ℝ≥0∞)
    (mp : MatrixProfile) (X : Dataset) (sh : TSShape)
    (h1 : mp.X_fit_dims = some sh) (h2 : X.shape.d = sh.d) :
    mp.transform st gp X = mp.transform_core st gp X := by
  have hfit : mp.is_fitted = .ok () := by
    unfold MatrixProfile.is_fitted
    rw [h1]
  have hdims : mp.check_dims_transform X = .ok () := by
    unfold MatrixProfile.check_dims_transform
    rw [h1]
    exact if_pos h2
  unfold MatrixProfile.transform
  rw [hfit, hdims]
  rfl

/-- With no backend configured, `_transform` takes the native path and
returns the per-series banded-minimum profile. -/
theorem transform_core_native (st gp : (ℕ → ℝ) → ℕ → ℕ → ℝ≥0∞)
    (mp : MatrixProfile) (X : Dataset) (himpl : mp.implementation = none) :
    mp.transform_core st gp X
      = .ok ⟨⟨X.shape.n_ts, n_windows X.shape.sz mp.subsequence_length, 1⟩,
          fun i_ts i _ => native_profile mp.subsequence_length X.shape.d X.shape.sz
            mp.scale (X.val i_ts) i⟩ := by
  have hcheck : mp.check_if_implementation_exists = .ok () := by
    unfold MatrixProfile.check_if_implementation_exists
    rw [himpl]
  unfold MatrixProfile.transform_core
  rw [hcheck, himpl]
  rfl

/-- With an unrecognized backend name, `_transform` raises before
reaching any branch. -/
theorem transform_core_unrecognized (st gp : (ℕ → ℝ) → ℕ → ℕ → ℝ≥0∞)
    (mp : MatrixProfile) (X : Dataset) (s : String) (himpl : mp.implementation = some s)
    (hs : s ∉ MatrixProfile.available_implementations) :
    mp.transform_core st gp X
      = .error (.valueError "This matrix profile algorithm is not recognized.") := by
  have hcheck : mp.check_if_implementation_exists
      = .error (.valueError "This matrix profile algorithm is not recognized.") := by
    unfold MatrixProfile.check_if_implementation_exists
    rw [himpl]
    exact if_neg hs
  unfold MatrixProfile.transform_core
  rw [hcheck]
  rfl

/-- With the `"stump"` backend configured, `_transform` either rejects
multi-channel input or delegates every series to the backend. -/
theorem transform_core_stump (st gp : (ℕ → ℝ) → ℕ → ℕ → ℝ≥0∞)
    (mp : MatrixProfile) (X : Dataset) (himpl : mp.implementation = some "stump") :
    mp.transform_core st gp X
      = if 1 < X.shape.d then
          .error (.notImplementedError "We currently do not support using multi-dimensional matrix profiles from the stumpy library.")
        else
          .ok ⟨⟨X.shape.n_ts, n_windows X.shape.sz mp.subsequence_length, 1⟩,
            fun i_ts i _ => st (fun t => X.val i_ts t 0) mp.subsequence_length i⟩ := by
  have hcheck : mp.check_if_implementation_exists = .ok () := by
    unfold MatrixProfile.check_if_implementation_exists
    rw [himpl]
    exact if_pos (by decide)
  simp only [MatrixProfile.transform_core, hcheck, himpl]
  rfl

/-- With the `"gpu_stump"` backend configured, `_transform` either rejects
multi-channel input or delegates every series to the backend. -/
theorem transform_core_gpu_stump (st gp : (ℕ → ℝ) → ℕ → ℕ → ℝ≥0∞)
    (mp : MatrixProfile) (X : Dataset) (himpl : mp.implementation = some "gpu_stump") :
    mp.transform_core st gp X
      = if 1 < X.shape.d then
          .error (.notImplementedError "We currently do not support using multi-dimensional matrix profiles from the stumpy library.")
        else
          .ok ⟨⟨X.shape.n_ts, n_windows X.shape.sz mp.subsequence_length, 1⟩,
            fun i_ts i _ => gp (fun t => X.val i_ts t 0) mp.subsequence_length i⟩ := by
  have hcheck : mp.check_if_implementation_exists = .ok () := by
    unfold MatrixProfile.check_if_implementation_exists
    rw [himpl]
    exact if_pos (by decide)
  simp only [MatrixProfile.transform_core, hcheck, himpl]
  rfl

/-! ### Claim theorems -/

/-- Claim C2: for a single `sz × d` series and `1 ≤ m ≤ sz`, segment
extraction yields exactly `sz - m + 1` windows, window `i` reads the
series at time `i + t` (channel unchanged), never beyond the series
bounds; a 3D batch is processed per series and stacked in series order. -/
theorem C2_segment_extraction (sz m : ℕ) (series : ℕ → ℕ → ℝ)
    (hm : 1 ≤ m) (hmsz : m ≤ sz) :
    n_windows sz m = sz - m + 1
    ∧ (∀ i t c, i < n_windows sz m → t < m →
        series_to_segments series i t c = series (i + t) c ∧ i + t < sz)
    ∧ (∀ (X : Dataset) (s i t c : ℕ), i < n_windows X.shape.sz m →
        series_to_segments_batch m X (s * n_windows X.shape.sz m + i) t c
          = series_to_segments (X.val s) i t c) := by
  refine ⟨rfl, ?_, ?_⟩
  · intro i t c hi htm
    refine ⟨rfl, ?_⟩
    unfold n_windows at hi
    omega
  · intro X s i t c hi
    have hnw : 0 < n_windows X.shape.sz m := by unfold n_windows; omega
    unfold series_to_segments_batch
    rw [Nat.mul_comm s, Nat.mul_add_div hnw, Nat.div_eq_of_lt hi, Nat.add_zero,
      Nat.mul_add_mod, Nat.mod_eq_of_lt hi]

/-- Witness for C2 at `sz = 5`, `m = 2`, `series (t, c) = t`. -/
theorem C2_segment_extraction_witness :
    ((1 : ℕ) ≤ 2 ∧ (2 : ℕ) ≤ 5)
    ∧ (n_windows 5 2 = 5 - 2 + 1
      ∧ (∀ i t c, i < n_windows 5 2 → t < 2 →
          series_to_segments (fun u _ => (u : ℝ)) i t c = ((i + t : ℕ) : ℝ)
            ∧ i + t < 5)
      ∧ (∀ (X : Dataset) (s i t c : ℕ), i < n_windows X.shape.sz 2 →
          series_to_segments_batch 2 X (s * n_windows X.shape.sz 2 + i) t c
            = series_to_segments (X.val s) i t c)) :=
  ⟨⟨by decide, by decide⟩,
    C2_segment_extraction 5 2 (fun u _ => (u : ℝ)) (by decide) (by decide)⟩

/-- Claim C6: the native-path distance matrix, before masking, is
symmetric with an exactly zero diagonal, and is exactly zero whenever the
two raw windows have identical content. -/
theorem C6_dists_symmetric_zero_diagonal (m d : ℕ) (scale : Bool) (series : ℕ → ℕ → ℝ) :
    (∀ i j, native_dists m d scale series i j = native_dists m d scale series j i)
    ∧ (∀ i, native_dists m d scale series i i = 0)
    ∧ (∀ i j, (∀ t c, t < m → c < d → series (i + t) c = series (j + t) c) →
        native_dists m d scale series i j = 0) := by
  refine ⟨?_, ?_, ?_⟩
  · intro i j
    simp only [native_dists, pdist_euclidean]
    congr 1
    refine Finset.sum_congr rfl (fun k _ => ?_)
    ring
  · intro i
    simp only [native_dists, pdist_euclidean]
    simp
  · intro i j h
    simp only [native_dists, pdist_euclidean]
    rw [Finset.sum_eq_zero, Real.sqrt_zero]
    intro k hk
    rw [Finset.mem_range] at hk
    have hd : 0 < d := by
      rcases Nat.eq_zero_or_pos d with h0 | h0
      · subst h0; simp at hk
      · exact h0
    have hkd : k / d < m := (Nat.div_lt_iff_lt_mul hd).mpr (by omega)
    have hkm : k % d < d := Nat.mod_lt _ hd
    have heq : segments_2d d
        (if scale then scale_segments m (series_to_segments series)
          else series_to_segments series) i k
        = segments_2d d
        (if scale then scale_segments m (series_to_segments series)
          else series_to_segments series) j k := by
      by_cases hs : scale = true
      · simp only [segments_2d, if_pos hs]
        exact scale_segments_congr m (series_to_segments series) i j (k / d) (k % d)
          (fun s hsm => h s (k % d) hsm hkm) hkd
      · simp only [segments_2d, if_neg hs, series_to_segments]
        exact h (k / d) (k % d) hkd hkm
    rw [heq, sub_self]
    ring

/-- Witness for C6 at `m = 2`, `d = 1`, `scale = true`, a constant series,
windows 0 and 2 (identical content, distance exactly 0). -/
theorem C6_dists_witness :
    native_dists 2 1 true (fun _ _ => (1 : ℝ)) 0 2 = 0 :=
  (C6_dists_symmetric_zero_diagonal 2 1 true (fun _ _ => (1 : ℝ))).2.2 0 2
    (fun _ _ _ _ => rfl)

/-- Claim C1: each native-path profile entry is the minimum, over the
window indices `j` with `|i - j| > band_width m`, of the Euclidean
distance between the (optionally scaled) windows `i` and `j`; banded
entries are `+∞` before the row-wise minimum. -/
theorem C1_profile_is_banded_min (m d sz : ℕ) (scale : Bool) (series : ℕ → ℕ → ℝ) (i : ℕ) :
    native_profile m d sz scale series i =
      ((Finset.range (n_windows sz m)).filter
          (fun j : ℕ => band_width m < ((i : ℤ) - (j : ℤ)).natAbs)).inf
        (fun j => ENNReal.ofReal (native_dists m d scale series i j)) := by
  unfold native_profile
  apply le_antisymm
  · refine Finset.le_inf (fun j hj => ?_)
    rw [Finset.mem_filter] at hj
    obtain ⟨hj1, hj2⟩ := hj
    have hb : ¬ in_band (band_width m) i j = true := by
      rw [in_band_iff]; omega
    refine le_trans (Finset.inf_le hj1) ?_
    simp only [native_masked, if_neg hb]
    exact le_refl _
  · refine Finset.le_inf (fun j hj => ?_)
    by_cases hb : in_band (band_width m) i j = true
    · simp only [native_masked, if_pos hb]
      exact le_top
    · have hmem : j ∈ (Finset.range (n_windows sz m)).filter
          (fun j : ℕ => band_width m < ((i : ℤ) - (j : ℤ)).natAbs) := by
        rw [Finset.mem_filter]
        refine ⟨hj, ?_⟩
        rw [in_band_iff] at hb
        omega
      refine le_trans (Finset.inf_le hmem) ?_
      simp only [native_masked, if_neg hb]
      exact le_refl _

/-- Claim C5: with `scale = true`, adding the same constant to every
value of a series leaves the native-path matrix profile unchanged. -/
theorem C5_additive_shift_invariance (m d sz : ℕ) (series : ℕ → ℕ → ℝ) (cst : ℝ)
    (i : ℕ) (hm : 1 ≤ m) :
    native_profile m d sz true (fun u ch => series u ch + cst) i
      = native_profile m d sz true series i := by
  have hdist : ∀ i' j, native_dists m d true (fun u ch => series u ch + cst) i' j
      = native_dists m d true series i' j := by
    intro i' j
    simp only [native_dists, pdist_euclidean, segments_2d, if_true]
    congr 1
    refine Finset.sum_congr rfl (fun k _ => ?_)
    rw [scale_segments_shift m hm series cst i' (k / d) (k % d),
      scale_segments_shift m hm series cst j (k / d) (k % d)]
  unfold native_profile
  refine Finset.inf_congr rfl (fun j _ => ?_)
  simp only [native_masked]
  rw [hdist]

/-- Witness for C5 at `m = 2`, `d = 1`, `sz = 3`, `series (t, c) = t`,
constant 5. -/
theorem C5_additive_shift_invariance_witness :
    (1 : ℕ) ≤ 2
    ∧ native_profile 2 1 3 true (fun u _ => (u : ℝ) + 5) 0
      = native_profile 2 1 3 true (fun u _ => (u : ℝ)) 0 :=
  ⟨by decide, C5_additive_shift_invariance 2 1 3 (fun u _ => (u : ℝ)) 5 0 (by decide)⟩

/-- Claim C4: `fit_transform(X)` produces exactly the output of `fit(X)`
followed by `transform(X)` on the same data, for every configuration and
backend. -/
theorem C4_fit_transform_eq_fit_then_transform
    (st gp : (ℕ → ℝ) → ℕ → ℕ → ℝ≥0∞) (mp : MatrixProfile) (X : Dataset) :
    mp.fit_transform st gp X = (mp.fit X).transform st gp X :=
  (transform_eq_core st gp (mp.fit X) X X.shape rfl rfl).symm

/-- Claim C3: for a fitted engine with a recognized (or unset) backend and
a dimension-compatible valid input, `transform` returns an output of shape
exactly `(n_ts, sz - m + 1, 1)` (the native path for any channel count
`d`; accelerated backends for `d ≤ 1`). -/
theorem C3_output_shape (st gp : (ℕ → ℝ) → ℕ → ℕ → ℝ≥0∞)
    (mp : MatrixProfile) (X : Dataset) (sh : TSShape)
    (hfit : mp.X_fit_dims = some sh) (hd : X.shape.d = sh.d)
    (hm : 1 ≤ mp.subsequence_length) (hsz : mp.subsequence_length ≤ X.shape.sz)
    (himpl : mp.implementation = none
      ∨ ((mp.implementation = some "stump" ∨ mp.implementation = some "gpu_stump")
          ∧ X.shape.d ≤ 1)) :
    (mp.transform st gp X).map MPOutput.shape
      = .ok ⟨X.shape.n_ts, X.shape.sz - mp.subsequence_length + 1, 1⟩ := by
  rw [transform_eq_core st gp mp X sh hfit hd]
  rcases himpl with h | ⟨h, hd1⟩
  · rw [transform_core_native st gp mp X h]
    rfl
  · have hnot : ¬ 1 < X.shape.d := by omega
    rcases h with h | h
    · rw [transform_core_stump st gp mp X h, if_neg hnot]
      rfl
    · rw [transform_core_gpu_stump st gp mp X h, if_neg hnot]
      rfl

/-- Witness for C3: a fitted native engine with `m = 2` on a
`(1, 3, 1)`-shaped input yields shape `(1, 2, 1)`. -/
theorem C3_output_shape_witness :
    ((⟨2, none, true, some ⟨1, 3, 1⟩⟩ : MatrixProfile).X_fit_dims = some ⟨1, 3, 1⟩
      ∧ (⟨⟨1, 3, 1⟩, fun _ _ _ => (0 : ℝ)⟩ : Dataset).shape.d = (⟨1, 3, 1⟩ : TSShape).d
      ∧ (1 : ℕ) ≤ 2 ∧ (2 : ℕ) ≤ 3)
    ∧ ((⟨2, none, true, some ⟨1, 3, 1⟩⟩ : MatrixProfile).transform
          (fun _ _ _ => 0) (fun _ _ _ => 0)
          ⟨⟨1, 3, 1⟩, fun _ _ _ => (0 : ℝ)⟩).map MPOutput.shape
        = .ok ⟨1, 2, 1⟩ :=
  ⟨⟨rfl, rfl, by decide, by decide⟩,
    C3_output_shape (fun _ _ _ => 0) (fun _ _ _ => 0)
      ⟨2, none, true, some ⟨1, 3, 1⟩⟩ ⟨⟨1, 3, 1⟩, fun _ _ _ => (0 : ℝ)⟩ ⟨1, 3, 1⟩
      rfl rfl (by decide) (by decide) (Or.inl rfl)⟩

/-- Claim C7: an unrecognized backend name makes `transform` (on a fitted,
dimension-compatible call) and `fit_transform` fail with the configuration
`ValueError` before any per-series computation, with no native fallback. -/
theorem C7_unrecognized_implementation (st gp : (ℕ → ℝ) → ℕ → ℕ → ℝ≥0∞)
    (mp : MatrixProfile) (X : Dataset) (sh : TSShape) (s : String)
    (hfit : mp.X_fit_dims = some sh) (hd : X.shape.d = sh.d)
    (himpl : mp.implementation = some s)
    (hs : s ∉ MatrixProfile.available_implementations) :
    mp.transform st gp X
        = .error (.valueError "This matrix profile algorithm is not recognized.")
    ∧ mp.fit_transform st gp X
        = .error (.valueError "This matrix profile algorithm is not recognized.") := by
  constructor
  · rw [transform_eq_core st gp mp X sh hfit hd]
    exact transform_core_unrecognized st gp mp X s himpl hs
  · exact transform_core_unrecognized st gp (mp.fit X) X s himpl hs

/-- Witness for C7 with the unrecognized name `"scrimp"`. -/
theorem C7_unrecognized_implementation_witness :
    ((⟨1, some "scrimp", true, some ⟨1, 2, 1⟩⟩ : MatrixProfile).X_fit_dims = some ⟨1, 2, 1⟩
      ∧ "scrimp" ∉ MatrixProfile.available_implementations)
    ∧ ((⟨1, some "scrimp", true, some ⟨1, 2, 1⟩⟩ : MatrixProfile).transform
          (fun _ _ _ => 0) (fun _ _ _ => 0) ⟨⟨1, 2, 1⟩, fun _ _ _ => (0 : ℝ)⟩
        = .error (.valueError "This matrix profile algorithm is not recognized.")
      ∧ (⟨1, some "scrimp", true, some ⟨1, 2, 1⟩⟩ : MatrixProfile).fit_transform
          (fun _ _ _ => 0) (fun _ _ _ => 0) ⟨⟨1, 2, 1⟩, fun _ _ _ => (0 : ℝ)⟩
        = .error (.valueError "This matrix profile algorithm is not recognized.")) :=
  ⟨⟨rfl, by decide⟩,
    C7_unrecognized_implementation (fun _ _ _ => 0) (fun _ _ _ => 0)
      ⟨1, some "scrimp", true, some ⟨1, 2, 1⟩⟩ ⟨⟨1, 2, 1⟩, fun _ _ _ => (0 : ℝ)⟩
      ⟨1, 2, 1⟩ "scrimp" rfl rfl rfl (by decide)⟩

/-- Claim C8: an accelerated backend with channel count `d > 1` makes
`transform` (fitted, dimension-compatible) and `fit_transform` fail with
`NotImplementedError`, producing no partial result and no native
fallback. -/
theorem C8_accelerated_multichannel (st gp : (ℕ → ℝ) → ℕ → ℕ → ℝ≥0∞)
    (mp : MatrixProfile) (X : Dataset) (sh : TSShape)
    (hfit : mp.X_fit_dims = some sh) (hd : X.shape.d = sh.d)
    (himpl : mp.implementation = some "stump" ∨ mp.implementation = some "gpu_stump")
    (hd1 : 1 < X.shape.d) :
    mp.transform st gp X
        = .error (.notImplementedError "We currently do not support using multi-dimensional matrix profiles from the stumpy library.")
    ∧ mp.fit_transform st gp X
        = .error (.notImplementedError "We currently do not support using multi-dimensional matrix profiles from the stumpy library.") := by
  constructor
  · rw [transform_eq_core st gp mp X sh hfit hd]
    rcases himpl with h | h
    · rw [transform_core_stump st gp mp X h, if_pos hd1]
    · rw [transform_core_gpu_stump st gp mp X h, if_pos hd1]
  · rcases himpl with h | h
    · rw [show mp.fit_transform st gp X = (mp.fit X).transform_core st gp X from rfl,
        transform_core_stump st gp (mp.fit X) X h, if_pos hd1]
    · rw [show mp.fit_transform st gp X = (mp.fit X).transform_core st gp X from rfl,
        transform_core_gpu_stump st gp (mp.fit X) X h, if_pos hd1]

/-- Witness for C8: `"stump"` backend with a `d = 2` input. -/
theorem C8_accelerated_multichannel_witness :
    ((⟨1, some "stump", true, some ⟨1, 2, 2⟩⟩ : MatrixProfile).X_fit_dims = some ⟨1, 2, 2⟩
      ∧ (1 : ℕ) < 2)
    ∧ ((⟨1, some "stump", true, some ⟨1, 2, 2⟩⟩ : MatrixProfile).transform
          (fun _ _ _ => 0) (fun _ _ _ => 0) ⟨⟨1, 2, 2⟩, fun _ _ _ => (0 : ℝ)⟩
        = .error (.notImplementedError "We currently do not support using multi-dimensional matrix profiles from the stumpy library.")
      ∧ (⟨1, some "stump", true, some ⟨1, 2, 2⟩⟩ : MatrixProfile).fit_transform
          (fun _ _ _ => 0) (fun _ _ _ => 0) ⟨⟨1, 2, 2⟩, fun _ _ _ => (0 : ℝ)⟩
        = .error (.notImplementedError "We currently do not support using multi-dimensional matrix profiles from the stumpy library.")) :=
  ⟨⟨rfl, by decide⟩,
    C8_accelerated_multichannel (fun _ _ _ => 0) (fun _ _ _ => 0)
      ⟨1, some "stump", true, some ⟨1, 2, 2⟩⟩ ⟨⟨1, 2, 2⟩, fun _ _ _ => (0 : ℝ)⟩
      ⟨1, 2, 2⟩ rfl rfl (Or.inl rfl) (by decide)⟩

/-- Claim C9: on an engine never fitted, `transform` fails with the
not-fitted state error for every input. -/
theorem C9_transform_before_fit (st gp : (ℕ → ℝ) → ℕ → ℕ → ℝ≥0∞)
    (mp : MatrixProfile) (X : Dataset) (h : mp.X_fit_dims = none) :
    mp.transform st gp X
      = .error (.notFittedError "This MatrixProfile instance is not fitted yet.") := by
  unfold MatrixProfile.transform MatrixProfile.is_fitted
  rw [h]
  rfl

/-- Witness for C9 on a freshly constructed engine. -/
theorem C9_transform_before_fit_witness :
    (⟨1, none, true, none⟩ : MatrixProfile).X_fit_dims = none
    ∧ (⟨1, none, true, none⟩ : MatrixProfile).transform
        (fun _ _ _ => 0) (fun _ _ _ => 0) ⟨⟨1, 2, 1⟩, fun _ _ _ => (0 : ℝ)⟩
      = .error (.notFittedError "This MatrixProfile instance is not fitted yet.") :=
  ⟨rfl, C9_transform_before_fit (fun _ _ _ => 0) (fun _ _ _ => 0)
    ⟨1, none, true, none⟩ ⟨⟨1, 2, 1⟩, fun _ _ _ => (0 : ℝ)⟩ rfl⟩

/-- Claim C10: on the native path, a row of the distance matrix lies
entirely inside the exclusion band exactly when `i ≤ b` and
`n_windows - 1 - i ≤ b`; in that case the transform still succeeds and the
profile entry is `+∞` (the row-wise minimum of an all-`+∞` row). -/
theorem C10_fully_masked_row (m d sz : ℕ) (scale : Bool) (series : ℕ → ℕ → ℝ) (i : ℕ)
    (hm : 1 ≤ m) (hmsz : m ≤ sz) (hi : i < n_windows sz m) :
    ((∀ j, j < n_windows sz m → in_band (band_width m) i j = true)
      ↔ (i ≤ band_width m ∧ n_windows sz m - 1 - i ≤ band_width m))
    ∧ ((i ≤ band_width m ∧ n_windows sz m - 1 - i ≤ band_width m) →
        native_profile m d sz scale series i = ⊤)
    ∧ (∀ st gp : (ℕ → ℝ) → ℕ → ℕ → ℝ≥0∞,
        (⟨m, none, scale, some ⟨1, sz, d⟩⟩ : MatrixProfile).transform st gp
            ⟨⟨1, sz, d⟩, fun _ => series⟩
          = .ok ⟨⟨1, n_windows sz m, 1⟩,
              fun _ i' _ => native_profile m d sz scale series i'⟩) := by
  have hall : (i ≤ band_width m ∧ n_windows sz m - 1 - i ≤ band_width m) →
      ∀ j, j < n_windows sz m → in_band (band_width m) i j = true := by
    rintro ⟨h1, h2⟩ j hj
    rw [in_band_iff]
    omega
  refine ⟨⟨?_, hall⟩, ?_, ?_⟩
  · intro h
    have h0 := h 0 (by omega)
    have hlast := h (n_windows sz m - 1) (by omega)
    rw [in_band_iff] at h0 hlast
    omega
  · intro hmask
    have hall' := hall hmask
    unfold native_profile
    refine eq_top_iff.mpr (Finset.le_inf (fun j hj => ?_))
    rw [Finset.mem_range] at hj
    have := hall' j hj
    simp only [native_masked, if_pos this]
    exact le_refl _
  · intro st gp
    rw [transform_eq_core st gp _ _ ⟨1, sz, d⟩ rfl rfl,
      transform_core_native st gp _ _ rfl]

/-- Witness for C10 at `m = 4`, `sz = 4` (a single window, whole row
masked): the profile entry is `+∞`. -/
theorem C10_fully_masked_row_witness :
    ((1 : ℕ) ≤ 4 ∧ (4 : ℕ) ≤ 4 ∧ (0 : ℕ) < n_windows 4 4)
    ∧ native_profile 4 1 4 false (fun _ _ => (0 : ℝ)) 0 = ⊤ :=
  ⟨⟨by decide, by decide, by decide⟩,
    (C10_fully_masked_row 4 1 4 false (fun _ _ => (0 : ℝ)) 0
      (by decide) (by decide) (by decide)).2.1 ⟨Nat.zero_le _, Nat.zero_le _⟩⟩

end TslearnMP
